import Mathlib

/-!
Verification of the core logic of `scrape_cacau_prices.py`: price-text
normalisation (`parse_price`), region row classification and unit derivation
(`fetch_cacau_prices`), and the history merge (`update_history_json`).

Modelling conventions:
* Python `str` values are Lean `String`s; all character-level operations
  (strip, replace, substring test, lower-casing, lexicographic comparison)
  are implemented structurally on `List Char`, which mirrors Python's
  code-point semantics and is kernel-computable.
* Python `float` prices are modelled as exact rationals `ℚ`; the spec's
  unit-ratio properties are stated "floating-point tolerance aside", which
  is exactly the rational reading.
* Python's `sorted` is a stable sort; it is embedded as Mathlib's
  structural `List.insertionSort`, which is also stable, with the
  comparator `le a b := key b ≤ key a` modelling `reverse=True`.
  A stable sort's output is uniquely determined by the comparator, so any
  stable implementation is a faithful embedding.
* File and network I/O are out of scope: `update_history_json` takes the
  loaded history as a parameter, and `fetch_cacau_prices` takes the
  extracted table rows (lists of cell texts) as a parameter.
-/

/-! ## Character-level text utilities -/

/-- Whitespace characters stripped by Python's `str.strip()` (the ASCII
whitespace subset, which covers the widget's text). -/
def isPyWS (c : Char) : Bool :=
  c = ' ' || c = '\t' || c = '\n' || c = '\r' || c = '\x0b' || c = '\x0c'

/-- Model of Python `str.strip()`: drop leading and trailing whitespace. -/
def stripChars (l : List Char) : List Char :=
  ((l.dropWhile isPyWS).reverse.dropWhile isPyWS).reverse

/-- Model of Python `str.lower()` restricted to ASCII letters plus the
accented uppercase Latin letters that occur in the widget labels. -/
def pyLowerChar (c : Char) : Char :=
  if c = 'Á' then 'á' else if c = 'À' then 'à' else if c = 'Â' then 'â'
  else if c = 'Ã' then 'ã' else if c = 'É' then 'é' else if c = 'Ê' then 'ê'
  else if c = 'Í' then 'í' else if c = 'Ó' then 'ó' else if c = 'Ô' then 'ô'
  else if c = 'Õ' then 'õ' else if c = 'Ú' then 'ú' else if c = 'Ç' then 'ç'
  else if 'A' ≤ c ∧ c ≤ 'Z' then Char.ofNat (c.toNat + 32) else c

/-- Model of Python's substring test `sub in s` on character lists. -/
def containsSub (s sub : List Char) : Bool :=
  sub.isPrefixOf s ||
    match s with
    | [] => false
    | _ :: t => containsSub t sub

/-- Lexicographic strict comparison of character lists by code point:
this is exactly Python's `str` comparison `a < b`. -/
def lexLt : List Char → List Char → Bool
  | [], [] => false
  | [], _ :: _ => true
  | _ :: _, [] => false
  | a :: as, b :: bs => if a < b then true else if b < a then false else lexLt as bs

/-- Python string comparison `a < b` lifted to `String`. -/
def strLt (a b : String) : Bool := lexLt a.data b.data

/-- Python string comparison `a <= b` lifted to `String`. -/
def strLe (a b : String) : Bool := strLt a b || a == b

/-! ## parse_price -/

/-- Numeric value of a list of decimal digit characters. -/
def digitsVal (l : List Char) : Nat :=
  l.foldl (fun n c => 10 * n + (c.toNat - 48)) 0

/-- Model of Python `float(s)` on the decimal forms reachable from the
widget after cleaning: an optional sign, an integer part and an optional
fractional part, with at least one digit (covers `"1920"`, `"1920.00"`,
`"12."`, `".5"`, `"-3.1"`; exotic forms such as exponents, `inf`, `nan`
or underscores do not occur in the cleaned price texts). Returns `none`
where Python raises `ValueError`. -/
def parseDec (l : List Char) : Option ℚ :=
  let signRest : Bool × List Char :=
    match l with
    | '-' :: r => (true, r)
    | '+' :: r => (false, r)
    | _ => (false, l)
  let rest := signRest.2
  let ip := rest.takeWhile Char.isDigit
  let rest2 := rest.dropWhile Char.isDigit
  let mk : List Char → List Char → Option ℚ := fun ipart fpart =>
    if ipart.isEmpty && fpart.isEmpty then none
    else
      let n : Int := (digitsVal ipart * 10 ^ fpart.length + digitsVal fpart : Nat)
      some (Rat.divInt (if signRest.1 then -n else n) ((10 : Int) ^ fpart.length))
  match rest2 with
  | [] => mk ip []
  | '.' :: fp => if fp.all Char.isDigit then mk ip fp else none
  | _ => none

/-- Normalisation performed by `parse_price`: strip surrounding whitespace,
remove every `'.'` (thousands separator), then turn each `','` into `'.'`
(decimal separator), exactly as
`text.strip().replace(".", "").replace(",", ".")`. -/
def cleanChars (l : List Char) : List Char :=
  ((stripChars l).filter (· != '.')).map (fun c => if c = ',' then '.' else c)

/-- Model of `parse_price` (src/scrape_cacau_prices.py lines 11-32): empty
input returns the sentinel `0`, otherwise the cleaned text is parsed, any
parse failure again returning the sentinel `0`. -/
def parse_price (text : String) : ℚ :=
  if text.data.isEmpty then 0
  else (parseDec (cleanChars text.data)).getD 0

/-! ## fetch_cacau_prices: row scanning and unit derivation -/

/-- Prices of one region in the three quoting units; `none` is Python's
`None` (missing value). -/
structure RegionPrices where
  arroba : Option ℚ
  kg : Option ℚ
  saca : Option ℚ
deriving DecidableEq, Repr

/-- Return value of `fetch_cacau_prices`: prices for both regions. -/
structure Prices where
  bahia : RegionPrices
  para : RegionPrices
deriving DecidableEq, Repr

/-- Mutable loop state of `fetch_cacau_prices`: the three price variables
`price_bahia_arroba`, `price_para_kg`, `price_para_arroba`. -/
structure ScanState where
  bahia_arroba : Option ℚ
  para_kg : Option ℚ
  para_arroba : Option ℚ
deriving DecidableEq, Repr

/-- Lower-cased first cell of a row (`name = cells[0].lower()`). -/
def rowName (cells : List String) : List Char :=
  ((cells.headD "").data).map pyLowerChar

/-- One loop iteration of `fetch_cacau_prices` (lines 78-95): skip rows
with fewer than two cells, then classify by substring of the lower-cased
label and overwrite the matching price variable. -/
def scanRow (st : ScanState) (cells : List String) : ScanState :=
  if cells.length < 2 then st
  else
    let name := rowName cells
    let priceText := cells.getD 1 ""
    if containsSub name "bahia".data then
      { st with bahia_arroba := some (parse_price priceText) }
    else if containsSub name "pará".data || containsSub name "para".data then
      if containsSub name "/kg".data || containsSub name " kg".data then
        { st with para_kg := some (parse_price priceText) }
      else if containsSub name "/arroba".data || containsSub name "arroba".data then
        { st with para_arroba := some (parse_price priceText) }
      else
        { st with para_arroba := some (parse_price priceText) }
    else st

/-- The whole row loop of `fetch_cacau_prices`. -/
def scanRows (rows : List (List String)) : ScanState :=
  rows.foldl scanRow ⟨none, none, none⟩

/-- Unit conversions after the row loop (lines 96-111): Bahia kg and saca
from the arroba value; for Pará the arroba value, when present, overrides
and rederives the kg value, otherwise the kg value derives the arroba
value; the saca value comes from the kg value. -/
def convertUnits (st : ScanState) : Prices :=
  let bahia_kg : Option ℚ :=
    match st.bahia_arroba with
    | some a => some (a / 15)
    | none => none
  let bahia_saca : Option ℚ :=
    match bahia_kg with
    | some k => some (k * 60)
    | none => none
  let paraPair : Option ℚ × Option ℚ :=
    match st.para_arroba, st.para_kg with
    | some a, _ => (some a, some (a / 15))
    | none, some k => (some (k * 15), some k)
    | none, none => (none, none)
  let para_saca : Option ℚ :=
    match paraPair.2 with
    | some k => some (k * 60)
    | none => none
  { bahia := ⟨st.bahia_arroba, bahia_kg, bahia_saca⟩
    para := ⟨paraPair.1, paraPair.2, para_saca⟩ }

/-- Model of `fetch_cacau_prices` (lines 55-123) on already-extracted
table rows (each row the list of its cell texts). -/
def fetch_cacau_prices (rows : List (List String)) : Prices :=
  convertUnits (scanRows rows)

/-! ## Dates and history records -/

/-- Timestamp of the run (`datetime` value), to second precision. -/
structure DateTime where
  year : Nat
  month : Nat
  day : Nat
  hour : Nat
  minute : Nat
  second : Nat
deriving DecidableEq, Repr

/-- Two-digit zero-padded decimal rendering (`%02d`), for values below 100. -/
def pad2 (n : Nat) : String :=
  ⟨[Char.ofNat (48 + n / 10 % 10), Char.ofNat (48 + n % 10)]⟩

/-- Four-digit zero-padded decimal rendering (`%04d`), for values below 10000. -/
def pad4 (n : Nat) : String :=
  ⟨[Char.ofNat (48 + n / 1000 % 10), Char.ofNat (48 + n / 100 % 10),
    Char.ofNat (48 + n / 10 % 10), Char.ofNat (48 + n % 10)]⟩

/-- Model of `now.strftime("%Y-%m-%d")`, the `hoje_str` of the merge. -/
def hojeStr (now : DateTime) : String :=
  pad4 now.year ++ "-" ++ pad2 now.month ++ "-" ++ pad2 now.day

/-- Model of `now.isoformat()` to second precision. -/
def isoformat (now : DateTime) : String :=
  hojeStr now ++ "T" ++ pad2 now.hour ++ ":" ++ pad2 now.minute ++ ":" ++ pad2 now.second

/-- One persisted history record (an element of `data/precos.json`). -/
structure Registro where
  produto : String
  tipo : String
  valor : Option ℚ
  referente_a : String
  coletado_em : String
  unidade : String
deriving DecidableEq, Repr

/-- Today's Bahia record appended by `update_history_json` (lines 196-203). -/
def bahiaRecord (prices : Prices) (now : DateTime) : Registro :=
  ⟨"cacau", "bahia", prices.bahia.arroba, hojeStr now, isoformat now, "arroba"⟩

/-- Today's Pará record appended by `update_history_json` (lines 204-211). -/
def paraRecord (prices : Prices) (now : DateTime) : Registro :=
  ⟨"cacau", "para", prices.para.arroba, hojeStr now, isoformat now, "arroba"⟩

/-- Model of the `load` step (lines 185-191): `none` stands for any blob on
which `json.load` fails (or a missing file); recovery yields the empty
history instead of an error. -/
def loadHistory (parsed : Option (List Registro)) : List Registro :=
  parsed.getD []

/-! ## The history merge -/

/-- Comparator of the first sort (line 216),
`sorted(filtrados, key=lambda r: (r["referente_a"], r["tipo"]), reverse=True)`:
`cmp1 a b` holds when the key of `b` is at most the key of `a` in the
lexicographic string order, i.e. descending by `(referente_a, tipo)`. -/
def cmp1 (a b : Registro) : Bool :=
  strLt b.referente_a a.referente_a ||
    (b.referente_a == a.referente_a && strLe b.tipo a.tipo)

/-- Tie-break flag of the second sort key, `0 if r["tipo"] == "bahia" else 1`. -/
def flagOf (r : Registro) : Nat :=
  if r.tipo == "bahia" then 0 else 1

/-- Comparator of the final sort (line 223),
`result.sort(key=lambda r: (r["referente_a"], 0 if r["tipo"] == "bahia" else 1), reverse=True)`:
descending by the key `(referente_a, flag)`. -/
def cmp2 (a b : Registro) : Bool :=
  strLt b.referente_a a.referente_a ||
    (b.referente_a == a.referente_a && decide (flagOf b ≤ flagOf a))

/-- Retention loop of `update_history_json` (lines 214-221): walk the sorted
records collecting the distinct dates seen so far, and keep a record only
while at most 10 distinct dates have been seen. -/
def retentionLoop : List Registro → List String → List Registro
  | [], _ => []
  | item :: rest, seen =>
    let seen' := if item.referente_a ∈ seen then seen else seen ++ [item.referente_a]
    if seen'.length ≤ 10 then item :: retentionLoop rest seen'
    else retentionLoop rest seen'

/-- Records remaining after dropping today's cacau entries, with today's two
fresh records appended (lines 192-211): the input of the sort-and-retain
phase. -/
def combined (registros : List Registro) (prices : Prices) (now : DateTime) : List Registro :=
  registros.filter (fun r => !(r.referente_a == hojeStr now && r.produto == "cacau"))
    ++ [bahiaRecord prices now, paraRecord prices now]

/-- Model of `update_history_json` (lines 170-227) on the loaded history:
drop today's cacau records, append the two fresh ones, stable-sort
descending by `(referente_a, tipo)`, keep the records of the first 10
distinct dates, then stable-sort descending by `(referente_a, flag)`.
Python's stable `sorted`/`list.sort` with `reverse=True` is embedded as
`List.insertionSort` (also stable) with the reversed-key comparator. -/
def update_history_json (registros : List Registro) (prices : Prices) (now : DateTime) :
    List Registro :=
  let sorted1 := List.insertionSort (fun a b => cmp1 a b = true) (combined registros prices now)
  let result := retentionLoop sorted1 []
  List.insertionSort (fun a b => cmp2 a b = true) result

/-- Dates (the `referente_a` fields) of a record list. -/
def datesOf (l : List Registro) : List String :=
  l.map (fun r => r.referente_a)

/-- Number of distinct dates in `l` strictly more recent than `d`. -/
def gtCount (l : List Registro) (d : String) : Nat :=
  (((datesOf l).dedup).filter (fun x => strLt d x)).length


/-! ## Row classification predicates (for the overwrite policy) -/

/-- Condition under which `scanRow` assigns `price_bahia_arroba`. -/
def rowSetsBahia (cells : List String) : Bool :=
  !(cells.length < 2) && containsSub (rowName cells) "bahia".data

/-- Condition under which a row reaches the Pará branch of `scanRow`. -/
def rowIsPara (cells : List String) : Bool :=
  !(cells.length < 2) && !containsSub (rowName cells) "bahia".data &&
    (containsSub (rowName cells) "pará".data || containsSub (rowName cells) "para".data)

/-- Condition under which `scanRow` assigns `price_para_kg`. -/
def rowSetsParaKg (cells : List String) : Bool :=
  rowIsPara cells &&
    (containsSub (rowName cells) "/kg".data || containsSub (rowName cells) " kg".data)

/-- Condition under which `scanRow` assigns `price_para_arroba` (both the
arroba-hint branch and the no-hint default branch assign it). -/
def rowSetsParaArroba (cells : List String) : Bool :=
  rowIsPara cells &&
    !(containsSub (rowName cells) "/kg".data || containsSub (rowName cells) " kg".data)

/-! ## Reference-date extraction as the spec describes it -/

/-- Model of `now.strftime("%d/%m/%Y")`, the dd/mm/yyyy rendering. -/
def formatDMY (now : DateTime) : String :=
  pad2 now.day ++ "/" ++ pad2 now.month ++ "/" ++ pad4 now.year

/-- Match of a `dd/mm/yyyy` digit pattern at the head of a text. -/
def dmyAt : List Char → Option (List Char)
  | d1 :: d2 :: '/' :: m1 :: m2 :: '/' :: y1 :: y2 :: y3 :: y4 :: _ =>
    if [d1, d2, m1, m2, y1, y2, y3, y4].all Char.isDigit then
      some [d1, d2, '/', m1, m2, '/', y1, y2, y3, y4]
    else none
  | _ => none

/-- First `dd/mm/yyyy` pattern occurring in a text, scanning left to right. -/
def findDMY : List Char → Option String
  | [] => none
  | c :: t =>
    match dmyAt (c :: t) with
    | some s => some ⟨s⟩
    | none => findDMY t

/-- Modelled from the spec: the reference-date extraction the specification
describes (search a designated footer area for a `dd/mm/yyyy` pattern and
only fall back to the fetch date when the pattern is absent). No such
search exists anywhere in `src/scrape_cacau_prices.py`; this definition
follows the spec words so the claimed behaviour can be compared with what
the code records. -/
def referencia_spec (footer : String) (now : DateTime) : String :=
  match findDMY footer.data with
  | some d => d
  | none => formatDMY now

/-! ## Concrete fixtures for the claim instances -/

/-- Fetch timestamp used by the concrete instances: 2025-09-19 12:00:00. -/
def now0 : DateTime := ⟨2025, 9, 19, 12, 0, 0⟩

/-- Concrete fetched prices (Bahia 1920/arroba, Pará 1500/arroba). -/
def prices0 : Prices := ⟨⟨some 1920, some 128, some 7680⟩, ⟨some 1500, some 100, some 6000⟩⟩

/-- Eleven distinct past dates, all older than `hojeStr now0`. -/
def oldDates11 : List String :=
  ["2025-09-07", "2025-09-08", "2025-09-09", "2025-09-10", "2025-09-11", "2025-09-12",
   "2025-09-13", "2025-09-14", "2025-09-15", "2025-09-16", "2025-09-17"]

/-- Persisted bahia record of an earlier run for date `d`. -/
def oldBahia (d : String) : Registro := ⟨"cacau", "bahia", some 1, d, "t", "arroba"⟩

/-- Persisted pará record of an earlier run for date `d`. -/
def oldPara (d : String) : Registro := ⟨"cacau", "para", some 2, d, "t", "arroba"⟩

/-- Existing history spanning 11 distinct dates with two records per date;
with today's two fresh records the combined set spans 12 distinct dates. -/
def existing22 : List Registro :=
  oldDates11.foldr (fun d acc => oldBahia d :: oldPara d :: acc) []

/-- The 9 most recent of the 11 old dates, descending: with today they make
up the 10 retained dates. -/
def keptDates9 : List String :=
  ["2025-09-17", "2025-09-16", "2025-09-15", "2025-09-14", "2025-09-13",
   "2025-09-12", "2025-09-11", "2025-09-10", "2025-09-09"]

/-- Expected merge output for the 12-distinct-date scenario: both records
of each of the 10 most recent dates, descending, pará before bahia within
a date (the order the code actually emits). -/
def expected20 : List Registro :=
  paraRecord prices0 now0 :: bahiaRecord prices0 now0 ::
    keptDates9.foldr (fun d acc => oldPara d :: oldBahia d :: acc) []

/-- Rows with two Pará quotes carrying different unit hints: an
arroba-quoted row first, then a kg-quoted row. -/
def rowsCE : List (List String) := [["Pará /arroba", "1.500,00"], ["Pará /kg", "90,00"]]

/-- Non-cacau record dated today, used to exercise the frame property. -/
def rW10 : Registro := ⟨"cafe", "bahia", some 7, "2025-09-19", "x", "saca"⟩

/-- One-record history holding only the non-cacau record. -/
def regW10 : List Registro := [rW10]

/-- One-record cacau history dated the day before `now0`. -/
def regW3 : List Registro := [⟨"cacau", "bahia", some 3, "2025-09-18", "x", "arroba"⟩]

/-- Predicate selecting today's cacau records (the dedup key of the merge). -/
def isTodayCacau (now : DateTime) (r : Registro) : Bool :=
  r.produto == "cacau" && r.referente_a == hojeStr now

/-! ## Order facts about the string comparison -/

theorem lexLt_irrefl (a : List Char) : lexLt a a = false := by
  induction a with
  | nil => rfl
  | cons x xs ih => simp [lexLt, lt_irrefl, ih]

theorem lexLt_trans (a : List Char) :
    ∀ b c, lexLt a b = true → lexLt b c = true → lexLt a c = true := by
  induction a with
  | nil =>
    intro b c h1 h2
    cases b with
    | nil => simp [lexLt] at h1
    | cons y ys =>
      cases c with
      | nil => simp [lexLt] at h2
      | cons z zs => simp [lexLt]
  | cons x xs ih =>
    intro b c h1 h2
    cases b with
    | nil => simp [lexLt] at h1
    | cons y ys =>
      cases c with
      | nil => simp [lexLt] at h2
      | cons z zs =>
        simp only [lexLt] at h1 h2 ⊢
        by_cases hxy : x < y
        · by_cases hyz : y < z
          · simp [lt_trans hxy hyz]
          · by_cases hzy : z < y
            · simp [hyz, hzy] at h2
            · have hyzeq : y = z := le_antisymm (not_lt.mp hzy) (not_lt.mp hyz)
              subst hyzeq
              simp [hxy]
        · by_cases hyx : y < x
          · simp [hxy, hyx] at h1
          · have hxyeq : x = y := le_antisymm (not_lt.mp hyx) (not_lt.mp hxy)
            subst hxyeq
            simp only [lt_irrefl, if_neg (lt_irrefl x), if_false] at h1
            by_cases hxz : x < z
            · simp [hxz]
            · by_cases hzx : z < x
              · simp [hxz, hzx] at h2
              · have hxzeq : x = z := le_antisymm (not_lt.mp hzx) (not_lt.mp hxz)
                subst hxzeq
                simp only [lt_irrefl, if_neg (lt_irrefl x), if_false] at h2 ⊢
                exact ih ys zs h1 h2

theorem lexLt_asymm (a : List Char) :
    ∀ b, lexLt a b = true → lexLt b a = false := by
  induction a with
  | nil =>
    intro b h1
    cases b with
    | nil => simp [lexLt] at h1
    | cons y ys => simp [lexLt]
  | cons x xs ih =>
    intro b h1
    cases b with
    | nil => simp [lexLt] at h1
    | cons y ys =>
      simp only [lexLt] at h1 ⊢
      by_cases hxy : x < y
      · simp [hxy, asymm hxy]
      · by_cases hyx : y < x
        · simp [hxy, hyx] at h1
        · have hxyeq : x = y := le_antisymm (not_lt.mp hyx) (not_lt.mp hxy)
          subst hxyeq
          simp only [lt_irrefl, if_neg (lt_irrefl x), if_false] at h1 ⊢
          exact ih ys h1

theorem lexLt_total (a : List Char) :
    ∀ b, lexLt a b = true ∨ a = b ∨ lexLt b a = true := by
  induction a with
  | nil =>
    intro b
    cases b with
    | nil => exact Or.inr (Or.inl rfl)
    | cons y ys => exact Or.inl (by simp [lexLt])
  | cons x xs ih =>
    intro b
    cases b with
    | nil => exact Or.inr (Or.inr (by simp [lexLt]))
    | cons y ys =>
      rcases lt_trichotomy x y with hxy | hxy | hxy
      · exact Or.inl (by simp [lexLt, hxy])
      · subst hxy
        rcases ih ys with h | h | h
        · exact Or.inl (by simp [lexLt, lt_irrefl, h])
        · exact Or.inr (Or.inl (by rw [h]))
        · exact Or.inr (Or.inr (by simp [lexLt, lt_irrefl, h]))
      · exact Or.inr (Or.inr (by simp [lexLt, hxy, asymm hxy]))

theorem string_eq_of_data_eq {a b : String} (h : a.data = b.data) : a = b := by
  cases a; cases b; exact congrArg String.mk h

theorem strLt_irrefl (a : String) : strLt a a = false := lexLt_irrefl a.data

theorem strLt_trans {a b c : String} (h1 : strLt a b = true) (h2 : strLt b c = true) :
    strLt a c = true := lexLt_trans a.data b.data c.data h1 h2

theorem strLt_asymm {a b : String} (h : strLt a b = true) : strLt b a = false :=
  lexLt_asymm a.data b.data h

theorem strLt_total (a b : String) : strLt a b = true ∨ a = b ∨ strLt b a = true := by
  rcases lexLt_total a.data b.data with h | h | h
  · exact Or.inl h
  · exact Or.inr (Or.inl (string_eq_of_data_eq h))
  · exact Or.inr (Or.inr h)

theorem strLe_iff {a b : String} : strLe a b = true ↔ strLt a b = true ∨ a = b := by
  simp [strLe, Bool.or_eq_true, beq_iff_eq]

theorem strLe_refl (a : String) : strLe a a = true := by
  simp [strLe_iff]

theorem strLe_trans {a b c : String} (h1 : strLe a b = true) (h2 : strLe b c = true) :
    strLe a c = true := by
  rcases strLe_iff.mp h1 with h1 | rfl
  · rcases strLe_iff.mp h2 with h2 | rfl
    · exact strLe_iff.mpr (Or.inl (strLt_trans h1 h2))
    · exact strLe_iff.mpr (Or.inl h1)
  · exact h2

theorem strLe_total (a b : String) : strLe a b = true ∨ strLe b a = true := by
  rcases strLt_total a b with h | rfl | h
  · exact Or.inl (strLe_iff.mpr (Or.inl h))
  · exact Or.inl (strLe_refl a)
  · exact Or.inr (strLe_iff.mpr (Or.inl h))

theorem strLt_of_le_of_lt {a b c : String} (h1 : strLe a b = true) (h2 : strLt b c = true) :
    strLt a c = true := by
  rcases strLe_iff.mp h1 with h1 | rfl
  · exact strLt_trans h1 h2
  · exact h2

theorem strLe_antisymm {a b : String} (h1 : strLe a b = true) (h2 : strLe b a = true) :
    a = b := by
  rcases strLe_iff.mp h1 with h1 | rfl
  · rcases strLe_iff.mp h2 with h2 | rfl
    · exact absurd h2 (by simp [strLt_asymm h1])
    · rfl
  · rfl

theorem strLt_ne {a b : String} (h : strLt a b = true) : a ≠ b := by
  intro hab
  subst hab
  exact absurd h (by simp [strLt_irrefl])

/-! ## Properties of the two sort comparators -/

theorem cmp1_iff {a b : Registro} :
    cmp1 a b = true ↔
      strLt b.referente_a a.referente_a = true ∨
        (b.referente_a = a.referente_a ∧ strLe b.tipo a.tipo = true) := by
  simp [cmp1, Bool.or_eq_true, Bool.and_eq_true, beq_iff_eq]

theorem cmp1_trans (a b c : Registro) (h1 : cmp1 a b = true) (h2 : cmp1 b c = true) :
    cmp1 a c = true := by
  rcases cmp1_iff.mp h1 with h1 | ⟨h1e, h1t⟩
  · rcases cmp1_iff.mp h2 with h2 | ⟨h2e, h2t⟩
    · exact cmp1_iff.mpr (Or.inl (strLt_trans h2 h1))
    · exact cmp1_iff.mpr (Or.inl (h2e ▸ h1))
  · rcases cmp1_iff.mp h2 with h2 | ⟨h2e, h2t⟩
    · exact cmp1_iff.mpr (Or.inl (h1e ▸ h2))
    · exact cmp1_iff.mpr (Or.inr ⟨h2e.trans h1e, strLe_trans h2t h1t⟩)

theorem cmp1_total (a b : Registro) : cmp1 a b = true ∨ cmp1 b a = true := by
  rcases strLt_total a.referente_a b.referente_a with h | h | h
  · exact Or.inr (cmp1_iff.mpr (Or.inl h))
  · rcases strLe_total a.tipo b.tipo with ht | ht
    · exact Or.inr (cmp1_iff.mpr (Or.inr ⟨h, ht⟩))
    · exact Or.inl (cmp1_iff.mpr (Or.inr ⟨h.symm, ht⟩))
  · exact Or.inl (cmp1_iff.mpr (Or.inl h))

theorem cmp1_date_le {a b : Registro} (h : cmp1 a b = true) :
    strLe b.referente_a a.referente_a = true := by
  rcases cmp1_iff.mp h with h | ⟨he, _⟩
  · exact strLe_iff.mpr (Or.inl h)
  · exact strLe_iff.mpr (Or.inr he)

theorem cmp2_iff {a b : Registro} :
    cmp2 a b = true ↔
      strLt b.referente_a a.referente_a = true ∨
        (b.referente_a = a.referente_a ∧ flagOf b ≤ flagOf a) := by
  simp [cmp2, Bool.or_eq_true, Bool.and_eq_true, beq_iff_eq]

theorem cmp2_trans (a b c : Registro) (h1 : cmp2 a b = true) (h2 : cmp2 b c = true) :
    cmp2 a c = true := by
  rcases cmp2_iff.mp h1 with h1 | ⟨h1e, h1t⟩
  · rcases cmp2_iff.mp h2 with h2 | ⟨h2e, h2t⟩
    · exact cmp2_iff.mpr (Or.inl (strLt_trans h2 h1))
    · exact cmp2_iff.mpr (Or.inl (h2e ▸ h1))
  · rcases cmp2_iff.mp h2 with h2 | ⟨h2e, h2t⟩
    · exact cmp2_iff.mpr (Or.inl (h1e ▸ h2))
    · exact cmp2_iff.mpr (Or.inr ⟨h2e.trans h1e, le_trans h2t h1t⟩)

theorem cmp2_total (a b : Registro) : cmp2 a b = true ∨ cmp2 b a = true := by
  rcases strLt_total a.referente_a b.referente_a with h | h | h
  · exact Or.inr (cmp2_iff.mpr (Or.inl h))
  · rcases le_total (flagOf a) (flagOf b) with ht | ht
    · exact Or.inr (cmp2_iff.mpr (Or.inr ⟨h, ht⟩))
    · exact Or.inl (cmp2_iff.mpr (Or.inr ⟨h.symm, ht⟩))
  · exact Or.inl (cmp2_iff.mpr (Or.inl h))

/-- Within a common date, a bahia-flagged record never sorts (weakly) before
a pará-flagged one under the final comparator: `flag 1 ≤ flag 0` fails. -/
theorem cmp2_bahia_para_false (prices : Prices) (now : DateTime) :
    cmp2 (bahiaRecord prices now) (paraRecord prices now) = false := by
  rw [Bool.eq_false_iff]
  intro h
  rcases cmp2_iff.mp h with h | ⟨_, hle⟩
  · exact absurd h (by simp [bahiaRecord, paraRecord, strLt_irrefl])
  · simp [bahiaRecord, paraRecord, flagOf] at hle

theorem bahiaRecord_ne_paraRecord (prices : Prices) (now : DateTime) :
    bahiaRecord prices now ≠ paraRecord prices now := by
  intro h
  have := congrArg Registro.tipo h
  simp [bahiaRecord, paraRecord] at this

/-! ## Characterisation of the retention loop -/

/-- Run of records sharing a date already seen: each is kept exactly when at
most 10 distinct dates have been collected, and `seen` does not change. -/
theorem retentionLoop_const_block (d : String) (B : List Registro) :
    ∀ (R : List Registro) (seen : List String),
      (∀ r ∈ B, r.referente_a = d) → d ∈ seen →
      retentionLoop (B ++ R) seen =
        (if seen.length ≤ 10 then B else []) ++ retentionLoop R seen := by
  induction B with
  | nil =>
    intro R seen _ _
    simp
  | cons b B' ih =>
    intro R seen hB hd
    have hbd : b.referente_a = d := hB b (List.mem_cons_self _ _)
    simp only [List.cons_append, retentionLoop, hbd, if_pos hd, List.append_eq]
    rw [ih R seen (fun r hr => hB r (List.mem_cons_of_mem _ hr)) hd]
    by_cases hlen : seen.length ≤ 10
    · simp [hlen]
    · simp [hlen]

/-- After dropping the leading run of records dated `d`, every remaining
record of a date-descending list is strictly older than `d`. -/
theorem dropWhile_dates_lt (d : String) (t : List Registro)
    (hpw : List.Pairwise (fun a b => strLe b a = true) (datesOf t))
    (hle : ∀ r ∈ t, strLe r.referente_a d = true) :
    ∀ r ∈ t.dropWhile (fun r => r.referente_a == d), strLt r.referente_a d = true := by
  induction t with
  | nil => intro r hr; simp [List.dropWhile] at hr
  | cons b t' ih =>
    intro r hr
    have hpw2 : (∀ x ∈ t', strLe x.referente_a b.referente_a = true) ∧
        List.Pairwise (fun a b => strLe b a = true)
          (List.map (fun r => r.referente_a) t') := by
      simpa [datesOf] using hpw
    rw [List.dropWhile_cons] at hr
    by_cases hbd : (b.referente_a == d) = true
    · rw [if_pos hbd] at hr
      exact ih (by simpa [datesOf] using hpw2.2)
        (fun q hq => hle q (List.mem_cons_of_mem _ hq)) r hr
    · rw [if_neg hbd] at hr
      have hblt : strLt b.referente_a d = true := by
        rcases strLe_iff.mp (hle b (List.mem_cons_self _ _)) with h | h
        · exact h
        · exact absurd (beq_iff_eq.mpr h) hbd
      rcases List.mem_cons.mp hr with rfl | hr'
      · exact hblt
      · have hrb : strLe r.referente_a b.referente_a = true := hpw2.1 r hr'
        exact strLt_of_le_of_lt hrb hblt

/-- Deduplication of a list headed by `d`, a run of copies of `d`, then a
tail not containing `d`: the result is `d` followed by the tail's dedup. -/
theorem dedup_const_prefix (d : String) (ds : List String) :
    ∀ rs : List String, (∀ x ∈ ds, x = d) → d ∉ rs →
      (d :: (ds ++ rs)).dedup = d :: rs.dedup := by
  induction ds with
  | nil => intro rs _ hd; simp [List.dedup_cons_of_not_mem hd]
  | cons e ds' ih =>
    intro rs hds hd
    have he : e = d := hds e (List.mem_cons_self _ _)
    subst he
    rw [List.cons_append, List.dedup_cons_of_mem (List.mem_cons_self _ _)]
    exact ih rs (fun x hx => hds x (List.mem_cons_of_mem _ hx)) hd

/-- The head of a date-descending record list has no strictly newer date in
the whole list. -/
theorem gtCount_head_zero (a : Registro) (t : List Registro)
    (hpw : List.Pairwise (fun x y => strLe y x = true) (datesOf (a :: t))) :
    gtCount (a :: t) a.referente_a = 0 := by
  have hall : ∀ x ∈ datesOf (a :: t), strLe x a.referente_a = true := by
    have hpw2 : (∀ x ∈ t, strLe x.referente_a a.referente_a = true) ∧
        List.Pairwise (fun x y => strLe y x = true)
          (List.map (fun r => r.referente_a) t) := by
      simpa [datesOf] using hpw
    intro x hx
    rcases List.mem_cons.mp (by simpa [datesOf] using hx : x ∈ a.referente_a :: datesOf t) with rfl | hx'
    · exact strLe_refl _
    · rcases List.mem_map.mp hx' with ⟨r, hr, rfl⟩
      exact hpw2.1 r hr
  have : ((datesOf (a :: t)).dedup.filter (fun x => strLt a.referente_a x)) = [] := by
    rw [List.filter_eq_nil_iff]
    intro x hx
    have hxle := hall x (List.mem_dedup.mp hx)
    rcases strLe_iff.mp hxle with hlt | rfl
    · simp [strLt_asymm hlt]
    · simp [strLt_irrefl]
  simp [gtCount, this]

/-- For a record strictly older than the shared head date `d` of a
date-descending list `a :: B ++ R` (with `a` and all of `B` dated `d` and
`R` strictly older), the distinct newer dates are exactly `d` plus the
distinct newer dates within `R`. -/
theorem gtCount_tail (a : Registro) (B R : List Registro) (r : Registro)
    (hB : ∀ b ∈ B, b.referente_a = a.referente_a)
    (hR : ∀ q ∈ R, strLt q.referente_a a.referente_a = true)
    (hr : strLt r.referente_a a.referente_a = true) :
    gtCount (a :: (B ++ R)) r.referente_a = 1 + gtCount R r.referente_a := by
  have hdedup : (datesOf (a :: (B ++ R))).dedup = a.referente_a :: (datesOf R).dedup := by
    have : datesOf (a :: (B ++ R)) = a.referente_a :: (datesOf B ++ datesOf R) := by
      simp [datesOf]
    rw [this]
    refine dedup_const_prefix _ _ _ ?_ ?_
    · intro x hx
      rcases List.mem_map.mp hx with ⟨b, hb, rfl⟩
      exact hB b hb
    · intro hmem
      rcases List.mem_map.mp hmem with ⟨q, hq, hqd⟩
      exact strLt_ne (hR q hq) hqd
  rw [gtCount, hdedup, List.filter_cons_of_pos (by simpa using hr)]
  simp [gtCount, Nat.add_comm]

/-- Main characterisation of the retention loop: on a date-descending list
whose dates are all strictly newer than anything in `seen`, a record is
kept exactly when fewer than `10 - seen.length` distinct strictly-newer
dates precede it. -/
theorem retentionLoop_eq_filter (n : Nat) :
    ∀ (l : List Registro) (seen : List String),
      l.length ≤ n →
      List.Pairwise (fun a b => strLe b a = true) (datesOf l) →
      (∀ r ∈ l, ∀ s ∈ seen, strLt r.referente_a s = true) →
      retentionLoop l seen =
        l.filter (fun r => decide (seen.length + gtCount l r.referente_a < 10)) := by
  induction n with
  | zero =>
    intro l seen hlen _ _
    have : l = [] := List.length_eq_zero.mp (Nat.le_zero.mp hlen)
    subst this
    rfl
  | succ n ih =>
    intro l seen hlen hpw hstrict
    cases l with
    | nil => rfl
    | cons a t =>
      have hdnot : a.referente_a ∉ seen := fun hmem =>
        absurd (hstrict a (List.mem_cons_self _ _) _ hmem) (by simp [strLt_irrefl])
      have hpw2 : (∀ x ∈ t, strLe x.referente_a a.referente_a = true) ∧
          List.Pairwise (fun x y => strLe y x = true)
            (List.map (fun r => r.referente_a) t) := by
        simpa [datesOf] using hpw
      have htBR : t.takeWhile (fun r => r.referente_a == a.referente_a) ++
          t.dropWhile (fun r => r.referente_a == a.referente_a) = t :=
        List.takeWhile_append_dropWhile _ _
      have hB : ∀ r ∈ t.takeWhile (fun r => r.referente_a == a.referente_a),
          r.referente_a = a.referente_a := by
        intro r hr
        have := List.mem_takeWhile_imp hr
        simpa using this
      have hRlt : ∀ r ∈ t.dropWhile (fun r => r.referente_a == a.referente_a),
          strLt r.referente_a a.referente_a = true :=
        dropWhile_dates_lt _ t (by simpa [datesOf] using hpw2.2) (fun r hr => hpw2.1 r hr)
      have hRsub : List.Sublist (t.dropWhile (fun r => r.referente_a == a.referente_a)) t :=
        List.dropWhile_sublist _
      have hRmem : ∀ r ∈ t.dropWhile (fun r => r.referente_a == a.referente_a), r ∈ t :=
        fun r hr => hRsub.subset hr
      set B := t.takeWhile (fun r => r.referente_a == a.referente_a) with hBdef
      set R := t.dropWhile (fun r => r.referente_a == a.referente_a) with hRdef
      have hstep : retentionLoop (a :: t) seen =
          if (seen ++ [a.referente_a]).length ≤ 10 then
            a :: retentionLoop t (seen ++ [a.referente_a])
          else retentionLoop t (seen ++ [a.referente_a]) := by
        simp only [retentionLoop, if_neg hdnot]
      have hblock : retentionLoop t (seen ++ [a.referente_a]) =
          (if (seen ++ [a.referente_a]).length ≤ 10 then B else []) ++
            retentionLoop R (seen ++ [a.referente_a]) := by
        conv_lhs => rw [← htBR]
        exact retentionLoop_const_block _ _ _ _ hB (by simp)
      have hRlen : R.length ≤ n := by
        have h1 : R.length ≤ t.length := hRsub.length_le
        have h2 : t.length ≤ n := by simpa using Nat.succ_le_succ_iff.mp (by simpa using hlen)
        exact le_trans h1 h2
      have hRpw : List.Pairwise (fun x y => strLe y x = true) (datesOf R) := by
        have hsub : List.Sublist (datesOf R) (List.map (fun r => r.referente_a) t) :=
          hRsub.map _
        exact List.Pairwise.sublist hsub hpw2.2
      have hRstrict : ∀ r ∈ R, ∀ s ∈ seen ++ [a.referente_a],
          strLt r.referente_a s = true := by
        intro r hr s hs
        rcases List.mem_append.mp hs with hs | hs
        · exact hstrict r (List.mem_cons_of_mem _ (hRmem r hr)) s hs
        · rcases List.mem_singleton.mp hs with rfl
          exact hRlt r hr
      have hrec := ih R (seen ++ [a.referente_a]) hRlen hRpw hRstrict
      have hlen1 : (seen ++ [a.referente_a]).length = seen.length + 1 := by simp
      have hpa : (decide (seen.length + gtCount (a :: t) a.referente_a < 10)) =
          (decide (seen.length + 1 ≤ 10)) := by
        rw [gtCount_head_zero a t hpw]
        exact decide_eq_decide.mpr (by omega)
      have hpB : ∀ r ∈ B, (decide (seen.length + gtCount (a :: t) r.referente_a < 10)) =
          (decide (seen.length + 1 ≤ 10)) := by
        intro r hr
        rw [hB r hr, gtCount_head_zero a t hpw]
        exact decide_eq_decide.mpr (by omega)
      have hpR : ∀ r ∈ R, (decide (seen.length + gtCount (a :: t) r.referente_a < 10)) =
          (decide ((seen ++ [a.referente_a]).length + gtCount R r.referente_a < 10)) := by
        intro r hr
        have := gtCount_tail a B R r hB hRlt (hRlt r hr)
        rw [← htBR]
        rw [this, hlen1]
        exact decide_eq_decide.mpr (by omega)
      have hfilter : (a :: t).filter
            (fun r => decide (seen.length + gtCount (a :: t) r.referente_a < 10)) =
          (if seen.length + 1 ≤ 10 then a :: B else []) ++
            R.filter (fun r =>
              decide ((seen ++ [a.referente_a]).length + gtCount R r.referente_a < 10)) := by
        rw [← htBR] at hpa hpB hpR
        conv_lhs => rw [show (a :: t) = a :: (B ++ R) from by rw [htBR]]
        by_cases hq : seen.length + 1 ≤ 10
        · rw [List.filter_cons_of_pos (by rw [hpa]; simpa using hq), if_pos hq,
            List.filter_append,
            List.filter_eq_self.mpr (fun r hr => by rw [hpB r hr]; simpa using hq),
            List.filter_congr hpR]
          simp
        · rw [List.filter_cons_of_neg (by rw [hpa]; simpa using hq), if_neg hq,
            List.filter_append,
            List.filter_eq_nil_iff.mpr (fun r hr => by rw [hpB r hr]; simpa using hq),
            List.filter_congr hpR]
      rw [hstep, hblock, hrec, hfilter, hlen1]
      by_cases hq : seen.length + 1 ≤ 10
      · simp [hq]
      · simp [hq]

/-- Retention characterisation from the empty seen-list: the loop keeps
exactly the records of the 10 most recent distinct dates, i.e. those whose
date has fewer than 10 distinct strictly-newer dates in the list. -/
theorem retentionLoop_spec (l : List Registro)
    (hpw : List.Pairwise (fun a b => strLe b a = true) (datesOf l)) :
    retentionLoop l [] =
      l.filter (fun r => decide (gtCount l r.referente_a < 10)) := by
  rw [retentionLoop_eq_filter l.length l [] le_rfl hpw (by simp)]
  exact List.filter_congr (fun r _ => by simp)

/-! ## Master characterisation of update_history_json -/

theorem gtCount_perm {l₁ l₂ : List Registro} (h : l₁.Perm l₂) (d : String) :
    gtCount l₁ d = gtCount l₂ d := by
  unfold gtCount datesOf
  exact (((h.map (fun r => r.referente_a)).dedup).filter _).length_eq

/-- The merge output is, up to reordering, exactly the combined record list
restricted to the records whose date is among the 10 most recent distinct
dates (fewer than 10 distinct strictly-newer dates in the combined list). -/
theorem update_history_perm (registros : List Registro) (prices : Prices) (now : DateTime) :
    (update_history_json registros prices now).Perm
      ((combined registros prices now).filter
        (fun r => decide (gtCount (combined registros prices now) r.referente_a < 10))) := by
  haveI ht : IsTotal Registro (fun a b => cmp1 a b = true) := ⟨cmp1_total⟩
  haveI htr : IsTrans Registro (fun a b => cmp1 a b = true) := ⟨cmp1_trans⟩
  set C := combined registros prices now with hC
  set S := List.insertionSort (fun a b => cmp1 a b = true) C with hS
  have hperm1 : S.Perm C := List.perm_insertionSort _ _
  have hsorted : List.Pairwise (fun a b => cmp1 a b = true) S :=
    List.sorted_insertionSort _ C
  have hdates : List.Pairwise (fun a b : String => strLe b a = true) (datesOf S) := by
    exact List.pairwise_map.mpr (hsorted.imp (fun h => cmp1_date_le h))
  have hret := retentionLoop_spec S hdates
  have hstep1 : (update_history_json registros prices now).Perm (retentionLoop S []) :=
    List.perm_insertionSort _ _
  rw [hret] at hstep1
  have hcongr : S.filter (fun r => decide (gtCount S r.referente_a < 10)) =
      S.filter (fun r => decide (gtCount C r.referente_a < 10)) :=
    List.filter_congr (fun r _ => by rw [gtCount_perm hperm1])
  rw [hcongr] at hstep1
  exact hstep1.trans (hperm1.filter _)

/-- The merge output is sorted by the final comparator: descending
`referente_a`, and within a date non-bahia (flag 1) before bahia (flag 0). -/
theorem update_history_sorted (registros : List Registro) (prices : Prices) (now : DateTime) :
    List.Pairwise (fun a b => cmp2 a b = true)
      (update_history_json registros prices now) := by
  haveI ht : IsTotal Registro (fun a b => cmp2 a b = true) := ⟨cmp2_total⟩
  haveI htr : IsTrans Registro (fun a b => cmp2 a b = true) := ⟨cmp2_trans⟩
  exact List.sorted_insertionSort _ _

/-- Membership in the merge output: exactly the combined records whose date
is among the 10 most recent distinct dates of the combined list. -/
theorem mem_update_history_iff (registros : List Registro) (prices : Prices)
    (now : DateTime) (r : Registro) :
    r ∈ update_history_json registros prices now ↔
      r ∈ combined registros prices now ∧
        gtCount (combined registros prices now) r.referente_a < 10 := by
  rw [(update_history_perm registros prices now).mem_iff, List.mem_filter]
  simp

/-! ## Helper lemmas about the merge output -/

theorem perm_pair_cases {α : Type} {x y : α} {l : List α} (h : l.Perm [x, y]) :
    l = [x, y] ∨ l = [y, x] := by
  have hlen : l.length = 2 := by simpa using h.length_eq
  rcases List.length_eq_two.mp hlen with ⟨u, v, rfl⟩
  by_cases hux : u = x
  · have h2 : List.Perm [v] [y] := by
      rw [hux] at h
      exact h.cons_inv
    have hv : v = y := by simpa using List.perm_singleton.mp h2
    exact Or.inl (by rw [hux, hv])
  · have huy : u = y := by
      have hmem : u ∈ [x, y] := h.subset (List.mem_cons_self u [v])
      simp only [List.mem_cons, List.not_mem_nil, or_false] at hmem
      rcases hmem with h1 | h1
      · exact absurd h1 hux
      · exact h1
    have hvx : v = x := by
      by_cases hxy : x = y
      · exact absurd (huy.trans hxy.symm) hux
      · have hmem : x ∈ [u, v] := h.symm.subset (List.mem_cons_self x [y])
        simp only [List.mem_cons, List.not_mem_nil, or_false] at hmem
        rcases hmem with h1 | h1
        · exact absurd h1.symm hux
        · exact h1.symm
    exact Or.inr (by rw [huy, hvx])

/-- A list permuting `[x, y]` and sorted for `cmp2` must be `[y, x]` when
`cmp2 x y` fails. -/
theorem pair_of_perm_of_sorted {x y : Registro} {l : List Registro}
    (h : l.Perm [x, y]) (hs : List.Pairwise (fun a b => cmp2 a b = true) l)
    (hxy : cmp2 x y = false) : l = [y, x] := by
  rcases perm_pair_cases h with rfl | rfl
  · have : cmp2 x y = true := (List.pairwise_cons.mp hs).1 y (List.mem_cons_self _ _)
    rw [this] at hxy
    cases hxy
  · rfl

/-- No date occurring in a record list bounded by `hoje` is strictly newer
than `hoje`, so its `gtCount` at `hoje` is zero. -/
theorem gtCount_eq_zero_of_le (l : List Registro) (hoje : String)
    (hle : ∀ r ∈ l, strLe r.referente_a hoje = true) :
    gtCount l hoje = 0 := by
  have hnil : (datesOf l).dedup.filter (fun x => strLt hoje x) = [] := by
    rw [List.filter_eq_nil_iff]
    intro x hx
    rcases List.mem_map.mp (List.mem_dedup.mp hx) with ⟨r, hr, rfl⟩
    rcases strLe_iff.mp (hle r hr) with hlt | heq
    · simp [strLt_asymm hlt]
    · rw [heq]
      simp [strLt_irrefl]
  simp [gtCount, hnil]

/-- Single-run shape of the merge for a history bounded by today: today's
cacau content of the output is exactly the fresh pará record followed by
the fresh bahia record, and the output is again bounded by today. -/
theorem update_history_today_filter (registros : List Registro) (prices : Prices)
    (now : DateTime)
    (hle : ∀ r ∈ registros, strLe r.referente_a (hojeStr now) = true) :
    (update_history_json registros prices now).filter (isTodayCacau now) =
        [paraRecord prices now, bahiaRecord prices now] ∧
      ∀ r ∈ update_history_json registros prices now,
        strLe r.referente_a (hojeStr now) = true := by
  set C := combined registros prices now with hC
  have hCle : ∀ r ∈ C, strLe r.referente_a (hojeStr now) = true := by
    intro r hr
    rcases List.mem_append.mp hr with hr | hr
    · exact hle r (List.mem_of_mem_filter hr)
    · rcases List.mem_cons.mp hr with rfl | hr
      · exact strLe_refl _
      · rcases List.mem_singleton.mp hr with rfl
        exact strLe_refl _
  have hmemle : ∀ r ∈ update_history_json registros prices now,
      strLe r.referente_a (hojeStr now) = true := by
    intro r hr
    have := (mem_update_history_iff registros prices now r).mp hr
    exact hCle r this.1
  refine ⟨?_, hmemle⟩
  have hgt0 : gtCount C (hojeStr now) = 0 := gtCount_eq_zero_of_le C _ hCle
  have hCfilter : C.filter (isTodayCacau now) =
      [bahiaRecord prices now, paraRecord prices now] := by
    rw [hC, combined, List.filter_append]
    have h1 : (registros.filter
        (fun r => !(r.referente_a == hojeStr now && r.produto == "cacau"))).filter
          (isTodayCacau now) = [] := by
      rw [List.filter_eq_nil_iff]
      intro r hr
      have := List.of_mem_filter hr
      simp only [Bool.not_eq_true'] at this
      simp only [isTodayCacau, Bool.and_eq_true, beq_iff_eq, not_and]
      intro hprod href
      have : (r.referente_a == hojeStr now && r.produto == "cacau") = true := by
        simp [href, hprod]
      simp_all
    rw [h1]
    simp [isTodayCacau, bahiaRecord, paraRecord]
  have hperm := update_history_perm registros prices now
  have hpermf := hperm.filter (isTodayCacau now)
  have hswap : (C.filter
        (fun r => decide (gtCount C r.referente_a < 10))).filter (isTodayCacau now) =
      [bahiaRecord prices now, paraRecord prices now] := by
    rw [List.filter_filter]
    have : C.filter (fun a => isTodayCacau now a &&
        decide (gtCount C a.referente_a < 10)) =
        (C.filter (isTodayCacau now)).filter
          (fun a => decide (gtCount C a.referente_a < 10)) := by
      rw [List.filter_filter]
      exact List.filter_congr (fun r _ => by rw [Bool.and_comm])
    rw [this, hCfilter]
    have hb : (bahiaRecord prices now).referente_a = hojeStr now := rfl
    have hp : (paraRecord prices now).referente_a = hojeStr now := rfl
    simp [hb, hp, hgt0]
  rw [hswap] at hpermf
  have hsorted : List.Pairwise (fun a b => cmp2 a b = true)
      ((update_history_json registros prices now).filter (isTodayCacau now)) :=
    List.Pairwise.sublist (List.filter_sublist _) (update_history_sorted registros prices now)
  exact pair_of_perm_of_sorted hpermf hsorted (cmp2_bahia_para_false prices now)

/-! ## Helper lemmas about the row loop -/

theorem scanRow_sets_bahia (st : ScanState) (cells : List String)
    (h : rowSetsBahia cells = true) :
    (scanRow st cells).bahia_arroba = some (parse_price (cells.getD 1 "")) := by
  simp only [rowSetsBahia, Bool.and_eq_true] at h
  obtain ⟨h1, h2⟩ := h
  have hlen : ¬ cells.length < 2 := by simpa using h1
  simp [scanRow, hlen, h2]

theorem scanRow_preserves_bahia (st : ScanState) (cells : List String)
    (h : rowSetsBahia cells = false) :
    (scanRow st cells).bahia_arroba = st.bahia_arroba := by
  by_cases h1 : cells.length < 2
  · simp [scanRow, h1]
  · have hsub : containsSub (rowName cells) "bahia".data = false := by
      have h'' := h
      unfold rowSetsBahia at h''
      simpa [h1] using h''
    simp [scanRow, h1, hsub, apply_ite]

theorem scanRow_sets_para_kg (st : ScanState) (cells : List String)
    (h : rowSetsParaKg cells = true) :
    (scanRow st cells).para_kg = some (parse_price (cells.getD 1 "")) := by
  simp only [rowSetsParaKg, rowIsPara, Bool.and_eq_true] at h
  obtain ⟨⟨⟨h1, hnb⟩, hp⟩, hkg⟩ := h
  have hlen : ¬ cells.length < 2 := by simpa using h1
  have hnb' : containsSub (rowName cells) "bahia".data = false := by simpa using hnb
  simp [scanRow, hlen, hnb', hp, hkg]

theorem scanRow_preserves_para_kg (st : ScanState) (cells : List String)
    (h : rowSetsParaKg cells = false) :
    (scanRow st cells).para_kg = st.para_kg := by
  by_cases h1 : cells.length < 2
  · simp [scanRow, h1]
  · by_cases hb : containsSub (rowName cells) "bahia".data = true
    · simp [scanRow, h1, hb]
    · have hbf : containsSub (rowName cells) "bahia".data = false := by simpa using hb
      by_cases h2 : (containsSub (rowName cells) "pará".data ||
          containsSub (rowName cells) "para".data) = true
      · by_cases hkg : (containsSub (rowName cells) "/kg".data ||
            containsSub (rowName cells) " kg".data) = true
        · exfalso
          have h'' := h
          simp [rowSetsParaKg, rowIsPara, h1, hbf, h2, hkg] at h''
        · simp [scanRow, h1, hbf, h2, hkg, apply_ite]
      · simp [scanRow, h1, hbf, h2, apply_ite]

theorem scanRow_sets_para_arroba (st : ScanState) (cells : List String)
    (h : rowSetsParaArroba cells = true) :
    (scanRow st cells).para_arroba = some (parse_price (cells.getD 1 "")) := by
  simp only [rowSetsParaArroba, rowIsPara, Bool.and_eq_true] at h
  obtain ⟨⟨⟨h1, hnb⟩, hp⟩, hnkg⟩ := h
  have hlen : ¬ cells.length < 2 := by simpa using h1
  have hnb' : containsSub (rowName cells) "bahia".data = false := by simpa using hnb
  have hnkg' : (containsSub (rowName cells) "/kg".data ||
      containsSub (rowName cells) " kg".data) = false := by simpa using hnkg
  simp [scanRow, hlen, hnb', hp, hnkg', apply_ite]

theorem scanRow_preserves_para_arroba (st : ScanState) (cells : List String)
    (h : rowSetsParaArroba cells = false) :
    (scanRow st cells).para_arroba = st.para_arroba := by
  by_cases h1 : cells.length < 2
  · simp [scanRow, h1]
  · by_cases hb : containsSub (rowName cells) "bahia".data = true
    · simp [scanRow, h1, hb]
    · have hbf : containsSub (rowName cells) "bahia".data = false := by simpa using hb
      by_cases h2 : (containsSub (rowName cells) "pará".data ||
          containsSub (rowName cells) "para".data) = true
      · by_cases hkg : (containsSub (rowName cells) "/kg".data ||
            containsSub (rowName cells) " kg".data) = true
        · simp [scanRow, h1, hbf, h2, hkg, apply_ite]
        · exfalso
          have hkgf : (containsSub (rowName cells) "/kg".data ||
              containsSub (rowName cells) " kg".data) = false := by simpa using hkg
          have h'' := h
          simp [rowSetsParaArroba, rowIsPara, h1, hbf, h2, hkgf] at h''
      · simp [scanRow, h1, hbf, h2, apply_ite]

theorem foldl_preserves_bahia (post : List (List String)) :
    ∀ st : ScanState, (∀ q ∈ post, rowSetsBahia q = false) →
      (post.foldl scanRow st).bahia_arroba = st.bahia_arroba := by
  induction post with
  | nil => intro st _; rfl
  | cons c post' ih =>
    intro st hpost
    rw [List.foldl_cons, ih _ (fun q hq => hpost q (List.mem_cons_of_mem _ hq)),
      scanRow_preserves_bahia st c (hpost c (List.mem_cons_self _ _))]

theorem foldl_preserves_para_kg (post : List (List String)) :
    ∀ st : ScanState, (∀ q ∈ post, rowSetsParaKg q = false) →
      (post.foldl scanRow st).para_kg = st.para_kg := by
  induction post with
  | nil => intro st _; rfl
  | cons c post' ih =>
    intro st hpost
    rw [List.foldl_cons, ih _ (fun q hq => hpost q (List.mem_cons_of_mem _ hq)),
      scanRow_preserves_para_kg st c (hpost c (List.mem_cons_self _ _))]

theorem foldl_preserves_para_arroba (post : List (List String)) :
    ∀ st : ScanState, (∀ q ∈ post, rowSetsParaArroba q = false) →
      (post.foldl scanRow st).para_arroba = st.para_arroba := by
  induction post with
  | nil => intro st _; rfl
  | cons c post' ih =>
    intro st hpost
    rw [List.foldl_cons, ih _ (fun q hq => hpost q (List.mem_cons_of_mem _ hq)),
      scanRow_preserves_para_arroba st c (hpost c (List.mem_cons_self _ _))]

/-! ## The claims -/

/-- C1: the claim says merged histories are sorted by `reference_date`
descending with bahia before para on equal dates. Date order descending is
real, but `reverse=True` on the key `(referente_a, 0 if bahia else 1)` also
inverts the tie-break, so the code emits the pará record before the bahia
record of the same date — contradicting the code's own comment
`Order result by date desc then type (bahia, para)`. This theorem evaluates
the merge at a concrete failing input: both fresh records carry the same
date, and the output lists pará first. -/
theorem history_tie_break_emits_para_first :
    update_history_json [] prices0 now0 =
        [paraRecord prices0 now0, bahiaRecord prices0 now0] ∧
      (bahiaRecord prices0 now0).referente_a = (paraRecord prices0 now0).referente_a ∧
      (paraRecord prices0 now0).tipo = "para" ∧
      (bahiaRecord prices0 now0).tipo = "bahia" := by
  decide

/-- C2: the merge retains the records of the 10 most recent distinct
reference dates, not the 10 most recent records. First conjunct: for every
input, the output is a permutation of the combined records whose date has
fewer than 10 distinct strictly-newer dates. Remaining conjuncts: on a
history of 11 past dates (two records each) plus today's two fresh records
— 12 distinct dates in all — the output has exactly 20 records, both
records of each of the 10 most recent dates. -/
theorem retention_keeps_ten_most_recent_distinct_dates :
    (∀ (registros : List Registro) (prices : Prices) (now : DateTime),
        (update_history_json registros prices now).Perm
          ((combined registros prices now).filter
            (fun r => decide (gtCount (combined registros prices now) r.referente_a < 10)))) ∧
      (update_history_json existing22 prices0 now0).length = 20 ∧
      update_history_json existing22 prices0 now0 = expected20 :=
  ⟨update_history_perm, by decide, by decide⟩

/-- C3: merging is idempotent per date. For any history whose dates do not
exceed today, one run leaves exactly one pará and one bahia cacau record
for today (in that order, the order the final sort produces), and a second
run with the same input leaves today's content unchanged — the same two
records, never duplicates. -/
theorem merge_idempotent_per_date (registros : List Registro) (prices : Prices)
    (now : DateTime)
    (hle : ∀ r ∈ registros, strLe r.referente_a (hojeStr now) = true) :
    (update_history_json registros prices now).filter (isTodayCacau now) =
        [paraRecord prices now, bahiaRecord prices now] ∧
      (update_history_json (update_history_json registros prices now) prices now).filter
          (isTodayCacau now) =
        [paraRecord prices now, bahiaRecord prices now] := by
  obtain ⟨h1, h2⟩ := update_history_today_filter registros prices now hle
  exact ⟨h1, (update_history_today_filter _ prices now h2).1⟩

/-- Witness for C3 at a concrete one-record history dated the day before. -/
theorem merge_idempotent_per_date_witness :
    (∀ r ∈ regW3, strLe r.referente_a (hojeStr now0) = true) ∧
      (update_history_json regW3 prices0 now0).filter (isTodayCacau now0) =
        [paraRecord prices0 now0, bahiaRecord prices0 now0] ∧
      (update_history_json (update_history_json regW3 prices0 now0) prices0 now0).filter
          (isTodayCacau now0) =
        [paraRecord prices0 now0, bahiaRecord prices0 now0] :=
  ⟨by decide, (merge_idempotent_per_date regW3 prices0 now0 (by decide)).1,
    (merge_idempotent_per_date regW3 prices0 now0 (by decide)).2⟩

/-- C4: `parse_price` strips surrounding whitespace, removes every `'.'`,
turns `','` into `'.'` and parses the result; in particular `"1.920,00"`
(also with surrounding whitespace) parses to `1920`. -/
theorem parse_price_brazilian_format :
    parse_price "1.920,00" = 1920 ∧
      parse_price "  1.920,00  " = 1920 ∧
      ∀ t : String, parse_price t =
        if t.data.isEmpty then 0 else (parseDec (cleanChars t.data)).getD 0 :=
  ⟨by decide, by decide, fun _ => rfl⟩

/-- C5: `parse_price` returns the sentinel `0` on the empty string, and on
every input whose normalised form fails the numeric parse, instead of
raising an error. -/
theorem parse_price_sentinel_zero :
    parse_price "" = 0 ∧
      ∀ t : String, parseDec (cleanChars t.data) = none → parse_price t = 0 := by
  refine ⟨by decide, ?_⟩
  intro t h
  unfold parse_price
  by_cases he : t.data.isEmpty
  · rw [if_pos he]
  · rw [if_neg he, h]
    rfl

/-- Witness for C5 at the unparseable input `"abc"`. -/
theorem parse_price_sentinel_zero_witness :
    parseDec (cleanChars "abc".data) = none ∧ parse_price "abc" = 0 :=
  ⟨by decide, parse_price_sentinel_zero.2 "abc" (by decide)⟩

/-- C6: derived units obey the fixed ratios exactly (over ℚ): an
arroba-quoted value `a` (Bahia, or Pará via the arroba variable) yields
`kg = a / 15` and `saca = (a / 15) * 60 = a * 4`; a Pará value quoted per
kg yields `arroba = k * 15` and `saca = k * 60`; and a missing source
value leaves all three units of that region `none`, never partially
populated. -/
theorem derive_units_fixed_ratios :
    ∀ (a k : ℚ) (b pk pa : Option ℚ),
      (convertUnits ⟨some a, pk, pa⟩).bahia.arroba = some a ∧
      (convertUnits ⟨some a, pk, pa⟩).bahia.kg = some (a / 15) ∧
      (convertUnits ⟨some a, pk, pa⟩).bahia.saca = some (a / 15 * 60) ∧
      a / 15 * 60 = a * 4 ∧
      (convertUnits ⟨b, pk, some a⟩).para = ⟨some a, some (a / 15), some (a / 15 * 60)⟩ ∧
      (convertUnits ⟨b, some k, none⟩).para = ⟨some (k * 15), some k, some (k * 60)⟩ ∧
      (convertUnits ⟨none, pk, pa⟩).bahia = ⟨none, none, none⟩ ∧
      (convertUnits ⟨b, none, none⟩).para = ⟨none, none, none⟩ := by
  intro a k b pk pa
  exact ⟨rfl, rfl, rfl, by ring, rfl, rfl, rfl, rfl⟩

/-- C7 counterexample: with an arroba-quoted Pará row followed by a
kg-quoted Pará row, the last matching row quotes 90 per kg, yet the final
Pará values are derived from the earlier arroba row (kg = 1500 / 15 = 100,
not 90) — the claim that the last matching row always wins, for differing
unit hints in either order, is false. -/
theorem row_overwrite_counterexample :
    (scanRows rowsCE).para_kg = some (parse_price "90,00") ∧
      parse_price "90,00" = 90 ∧
      (fetch_cacau_prices rowsCE).para.kg = some 100 ∧
      (fetch_cacau_prices rowsCE).para.kg ≠ some (parse_price "90,00") ∧
      (fetch_cacau_prices rowsCE).para = ⟨some 1500, some 100, some 6000⟩ := by
  have h90 : parse_price "90,00" = 90 := by decide
  have hscan : scanRows rowsCE = ⟨none, some 90, some 1500⟩ := by decide
  have hpara : (fetch_cacau_prices rowsCE).para = ⟨some 1500, some 100, some 6000⟩ := by
    rw [fetch_cacau_prices, hscan]
    show (⟨some 1500, some (1500 / 15), some (1500 / 15 * 60)⟩ : RegionPrices) =
      ⟨some 1500, some 100, some 6000⟩
    norm_num
  refine ⟨by decide, h90, ?_, ?_, hpara⟩
  · rw [hpara]
  · rw [hpara, h90]
    simp

/-- C7 amended: later rows overwrite earlier rows per price variable, not
per region: the last bahia-classified row determines `price_bahia_arroba`,
the last kg-hinted Pará row determines `price_para_kg`, and the last
arroba-hinted (or unhinted) Pará row determines `price_para_arroba`; the
final Pará values then come from the arroba variable whenever it was set
(see the counterexample for the resulting precedence). -/
theorem row_overwrite_per_slot :
    (∀ (pre : List (List String)) (c : List String) (post : List (List String)),
        rowSetsBahia c = true → (∀ q ∈ post, rowSetsBahia q = false) →
        (scanRows (pre ++ c :: post)).bahia_arroba = some (parse_price (c.getD 1 ""))) ∧
      (∀ (pre : List (List String)) (c : List String) (post : List (List String)),
        rowSetsParaKg c = true → (∀ q ∈ post, rowSetsParaKg q = false) →
        (scanRows (pre ++ c :: post)).para_kg = some (parse_price (c.getD 1 ""))) ∧
      (∀ (pre : List (List String)) (c : List String) (post : List (List String)),
        rowSetsParaArroba c = true → (∀ q ∈ post, rowSetsParaArroba q = false) →
        (scanRows (pre ++ c :: post)).para_arroba = some (parse_price (c.getD 1 ""))) := by
  refine ⟨?_, ?_, ?_⟩
  · intro pre c post hc hpost
    rw [scanRows, List.foldl_append, List.foldl_cons,
      foldl_preserves_bahia post _ hpost, scanRow_sets_bahia _ c hc]
  · intro pre c post hc hpost
    rw [scanRows, List.foldl_append, List.foldl_cons,
      foldl_preserves_para_kg post _ hpost, scanRow_sets_para_kg _ c hc]
  · intro pre c post hc hpost
    rw [scanRows, List.foldl_append, List.foldl_cons,
      foldl_preserves_para_arroba post _ hpost, scanRow_sets_para_arroba _ c hc]

/-- Witness for the amended C7: a bahia row followed by a non-bahia row;
the bahia variable holds the bahia row's parsed price. -/
theorem row_overwrite_per_slot_witness :
    rowSetsBahia ["Bahia /@", "1.920,00"] = true ∧
      (∀ q ∈ ([["Pará / Kg", "128,00"]] : List (List String)), rowSetsBahia q = false) ∧
      (scanRows ([] ++ ["Bahia /@", "1.920,00"] :: [["Pará / Kg", "128,00"]])).bahia_arroba =
        some (parse_price "1.920,00") :=
  ⟨by decide, by decide,
    row_overwrite_per_slot.1 [] ["Bahia /@", "1.920,00"] [["Pará / Kg", "128,00"]]
      (by decide) (by decide)⟩

/-- C8 counterexample: the spec-described extraction (search the footer for
a `dd/mm/yyyy` pattern, fall back to the fetch date when absent) would
record `18/09/2025` from a footer containing that date, but the code never
consults any footer: the records' `referente_a` is always the fetch date
rendered `%Y-%m-%d` — here `2025-09-19`, a different value in a different
format. -/
theorem reference_date_ignores_footer :
    referencia_spec "Fechamento: 18/09/2025" now0 = "18/09/2025" ∧
      (bahiaRecord prices0 now0).referente_a = "2025-09-19" ∧
      (paraRecord prices0 now0).referente_a = "2025-09-19" ∧
      ("2025-09-19" : String) ≠ "18/09/2025" := by
  decide

/-- C8 amended: the reference date recorded with each appended history
record is always the fetch date formatted `%Y-%m-%d`; no footer search
exists in the code. -/
theorem reference_date_is_fetch_date :
    ∀ (prices : Prices) (now : DateTime),
      (bahiaRecord prices now).referente_a = hojeStr now ∧
      (paraRecord prices now).referente_a = hojeStr now ∧
      hojeStr now = pad4 now.year ++ "-" ++ pad2 now.month ++ "-" ++ pad2 now.day ∧
      hojeStr now0 = "2025-09-19" :=
  fun _ _ => ⟨rfl, rfl, rfl, by decide⟩

/-- C9: a corrupt or unreadable history blob loads as the empty history,
and the subsequent merge still succeeds, producing exactly today's two
records (pará first, then bahia — the emitted order). -/
theorem corrupt_history_recovery (prices : Prices) (now : DateTime) :
    loadHistory none = [] ∧
      update_history_json (loadHistory none) prices now =
        [paraRecord prices now, bahiaRecord prices now] := by
  refine ⟨rfl, ?_⟩
  show update_history_json [] prices now = _
  have hC : combined [] prices now = [bahiaRecord prices now, paraRecord prices now] := rfl
  have hle : ∀ r ∈ combined [] prices now, strLe r.referente_a (hojeStr now) = true := by
    rw [hC]
    intro r hr
    rcases List.mem_cons.mp hr with rfl | hr
    · exact strLe_refl _
    · rcases List.mem_singleton.mp hr with rfl
      exact strLe_refl _
  have hgt := gtCount_eq_zero_of_le _ _ hle
  have hperm := update_history_perm [] prices now
  rw [hC] at hperm hgt
  have hb : (bahiaRecord prices now).referente_a = hojeStr now := rfl
  have hp : (paraRecord prices now).referente_a = hojeStr now := rfl
  have hfilt : ([bahiaRecord prices now, paraRecord prices now]).filter
      (fun r => decide
        (gtCount [bahiaRecord prices now, paraRecord prices now] r.referente_a < 10)) =
      [bahiaRecord prices now, paraRecord prices now] := by
    simp [hb, hp, hgt]
  rw [hfilt] at hperm
  exact pair_of_perm_of_sorted hperm (update_history_sorted [] prices now)
    (cmp2_bahia_para_false prices now)

/-- C10: frame property of the merge. Every existing record that is not
superseded (not a cacau record dated today) and not evicted (its date is
among the 10 most recent distinct dates of the combined set, i.e. fewer
than 10 distinct strictly-newer dates) appears in the output
field-for-field unchanged — it is the very same record value. -/
theorem merge_frame_passthrough (registros : List Registro) (prices : Prices)
    (now : DateTime) (r : Registro) (hmem : r ∈ registros)
    (hnot : (r.referente_a == hojeStr now && r.produto == "cacau") = false)
    (hrank : gtCount (combined registros prices now) r.referente_a < 10) :
    r ∈ update_history_json registros prices now := by
  rw [mem_update_history_iff]
  refine ⟨?_, hrank⟩
  unfold combined
  exact List.mem_append.mpr (Or.inl (List.mem_filter.mpr ⟨hmem, by simp [hnot]⟩))

/-- Witness for C10: a non-cacau record dated today passes through the
merge unchanged. -/
theorem merge_frame_passthrough_witness :
    rW10 ∈ regW10 ∧
      (rW10.referente_a == hojeStr now0 && rW10.produto == "cacau") = false ∧
      gtCount (combined regW10 prices0 now0) rW10.referente_a < 10 ∧
      rW10 ∈ update_history_json regW10 prices0 now0 :=
  ⟨by decide, by decide, by decide,
    merge_frame_passthrough regW10 prices0 now0 rW10 (by decide) (by decide) (by decide)⟩
